import Mathlib

/-!
Verification of the array_try_map crate (src/src/lib.rs).

The crate adds two methods to fixed-size arrays:

* try_map: a fallible map.  It builds the output array element by element in
  uninitialized storage, protected by a Guard struct whose Drop impl destroys
  exactly the initialized prefix of the output storage, so that an early
  return on an error value, or a non-local unwind raised by the transform,
  never leaks or double-destroys an output element.  On success the guard is
  disarmed with mem::forget and the storage is reinterpreted as the array.
* map2: map implemented as try_map with an uninhabited error type, unwrapped
  with into_ok (no runtime check, the error branch is statically dead).

We model the loop of try_map as an instrumented small-step execution: the
guard state (output slots plus the initialized counter), the trace of
micro-events (invoke f, write a slot, advance the counter), the list of
values destroyed by the guard at teardown, and whether the guard was
disarmed.  Arrays [T; N] are modelled as lists with N = length; the transform
FnMut(T) -> ... is modelled as a state-threading function S -> T -> S x
outcome, where the outcome can be success, an error value, or a panic
(non-local unwind).  A purely functional model of try_map and map2 is defined
as well and proved to agree with the instrumented one.
-/

namespace ArrayTryMap

/-- Outcome of a single invocation of the transform closure: a success value,
an error value (the Err arm of the Result), or a non-local unwind (panic). -/
inductive TOut (U E : Type) where
  | ok : U → TOut U E
  | err : E → TOut U E
  | panic : TOut U E
deriving DecidableEq

/-- Success value of a transform outcome, if any. -/
def TOut.toOpt {U E : Type} : TOut U E → Option U
  | TOut.ok u => some u
  | TOut.err _ => none
  | TOut.panic => none

/-- Micro-events of one execution of the try_map loop:
invoke i t — the transform is called on source element t at index i;
write i u — output slot i is written (dst.write(elem) in the source);
advance n — the initialized counter of the guard becomes n
(guard.initialized += 1 in the source). -/
inductive Event (T U E : Type) where
  | invoke : Nat → T → Event T U E
  | write : Nat → U → Event T U E
  | advance : Nat → Event T U E
deriving DecidableEq

/-- Result of a whole execution: a fully built array, a propagated error
value, or a propagated panic (unwind). -/
inductive Outcome (U E : Type) where
  | ok : List U → Outcome U E
  | err : E → Outcome U E
  | panicked : Outcome U E
deriving DecidableEq

/-- The Guard of the source: a view of the output storage (dst) together with
the count of initialized slots.  A slot is modelled as Option U: none is
uninitialized memory, some u holds the live value u. -/
structure Guard (U : Type) where
  dst : List (Option U)
  initialized : Nat
deriving DecidableEq

/-- The values Guard::drop destroys: it calls drop_in_place on the raw slice
of the first initialized slots of dst, in index order. -/
def Guard.liveSlice {U : Type} (g : Guard U) : List U :=
  (g.dst.take g.initialized).filterMap id

/-- Slot j of the guard currently holds a live value. -/
def slotWritten {U : Type} (g : Guard U) (j : Nat) : Bool :=
  (g.dst.getD j none).isSome

/-- Instrumented record of one execution of the try_map body.
outcome — the result returned (or the unwind propagated);
buildEvents — the micro-events of the loop, in order;
loopStates — the guard state at the head of each loop iteration and, on
normal loop exit, after the loop;
dropped — the values destroyed by Guard::drop at teardown, in index order
(empty when the guard was disarmed by mem::forget on the success path);
disarmed — whether mem::forget(guard) ran (success path only);
finalS — the final state of the FnMut closure. -/
structure Run (S T U E : Type) where
  outcome : Outcome U E
  buildEvents : List (Event T U E)
  loopStates : List (Guard U)
  dropped : List U
  disarmed : Bool
  finalS : S
deriving DecidableEq

/-- Effect of a successful iteration on the guard: dst.write at slot i, then
initialized += 1. -/
def stepOk {U : Type} (i : Nat) (u : U) (g : Guard U) : Guard U :=
  ⟨g.dst.set i (some u), g.initialized + 1⟩

/-- Prepend the events and loop-head state of a successful iteration at index
i to the record of the remaining execution. -/
def contOk {S T U E : Type} (i : Nat) (t : T) (u : U) (g : Guard U)
    (r : Run S T U E) : Run S T U E :=
  ⟨r.outcome,
    Event.invoke i t :: Event.write i u :: Event.advance (g.initialized + 1)
      :: r.buildEvents,
    g :: r.loopStates, r.dropped, r.disarmed, r.finalS⟩

/-- The loop of try_map, instrumented.  ts are the source elements not yet
consumed, i the index of the next one (equal to the number already consumed),
s the current closure state, g the guard.  Mirrors the source: each iteration
moves the next source element out, calls f; on Ok it writes the slot and then
increments initialized; on Err it returns the error and the guard drops the
live prefix; a panic propagates and the guard drops the live prefix during
unwinding; after the last iteration the guard is forgotten (disarmed) and the
storage is read back as the output array. -/
def runFrom {S T U E : Type} (f : S → T → S × TOut U E) :
    List T → Nat → S → Guard U → Run S T U E
  | [], _, s, g => ⟨Outcome.ok (g.dst.filterMap id), [], [g], [], true, s⟩
  | t :: ts, i, s, g =>
    match f s t with
    | (s1, TOut.ok u) => contOk i t u g (runFrom f ts (i + 1) s1 (stepOk i u g))
    | (s1, TOut.err e) =>
        ⟨Outcome.err e, [Event.invoke i t], [g], g.liveSlice, false, s1⟩
    | (s1, TOut.panic) =>
        ⟨Outcome.panicked, [Event.invoke i t], [g], g.liveSlice, false, s1⟩

/-- Fresh guard over n uninitialized slots (MaybeUninit::uninit_array). -/
def initGuard {U : Type} (n : Nat) : Guard U :=
  ⟨List.replicate n none, 0⟩

/-- Instrumented execution of try_map on a source array, a stateful transform
and its initial closure state. -/
def tryMapRun {S T U E : Type} (source : List T) (f : S → T → S × TOut U E)
    (s0 : S) : Run S T U E :=
  runFrom f source 0 s0 (initGuard source.length)

/-- The (index, element) pairs the transform was invoked on, in invocation
order. -/
def invokedIdx {S T U E : Type} (r : Run S T U E) : List (Nat × T) :=
  r.buildEvents.filterMap fun e =>
    match e with
    | Event.invoke i t => some (i, t)
    | _ => none

/-- The source elements the transform was invoked on, in invocation order. -/
def invoked {S T U E : Type} (r : Run S T U E) : List T :=
  (invokedIdx r).map Prod.snd

/-- Pair each element of a list with its index, starting at i. -/
def idxFrom {T : Type} : Nat → List T → List (Nat × T)
  | _, [] => []
  | i, t :: ts => (i, t) :: idxFrom (i + 1) ts

/-- Replay one micro-event on a guard state.  invoke leaves the storage and
counter unchanged; write fills a slot; advance sets the counter. -/
def applyEvent {T U E : Type} (g : Guard U) : Event T U E → Guard U
  | Event.invoke _ _ => g
  | Event.write i u => ⟨g.dst.set i (some u), g.initialized⟩
  | Event.advance n => ⟨g.dst, n⟩

/-- Replay a list of micro-events on a guard state. -/
def replay {T U E : Type} (g : Guard U) : List (Event T U E) → Guard U
  | [] => g
  | e :: evs => replay (applyEvent g e) evs

/-- The exact live-prefix invariant: the storage has n slots, the counter is
at most n, and a slot holds a live value exactly when it lies below the
counter. -/
def ExactSt {U : Type} (n : Nat) (g : Guard U) : Prop :=
  g.dst.length = n ∧ g.initialized ≤ n ∧
    ∀ j, j < n → (slotWritten g j = true ↔ j < g.initialized)

/-- Loop invariant at the head of iteration i: the counter equals i and the
exact live-prefix invariant holds. -/
def GoodSt {U : Type} (n i : Nat) (g : Guard U) : Prop :=
  g.initialized = i ∧ ExactSt n g

/-- View a Rust Result as a transform outcome (no panic). -/
def exceptToTOut {U E : Type} : Except E U → TOut U E
  | Except.ok u => TOut.ok u
  | Except.error e => TOut.err e

/-- A stateless Result-returning transform, as a stateful one. -/
def liftF {T U E : Type} (f : T → Except E U) : Unit → T → Unit × TOut U E :=
  fun _ t => ((), exceptToTOut (f t))

/-- A stateless possibly-panicking transform, as a stateful one. -/
def liftP {T U E : Type} (p : T → TOut U E) : Unit → T → Unit × TOut U E :=
  fun _ t => ((), p t)

/-- Success value of f on t, if any. -/
def okOf {T U E : Type} (f : T → Except E U) (t : T) : Option U :=
  match f t with
  | Except.ok u => some u
  | Except.error _ => none

/-- Functional model of the try_map loop: value-level behaviour only. -/
def tryMapGo {T U E : Type} (f : T → Except E U) : List T → Except E (List U)
  | [] => Except.ok []
  | t :: ts =>
    match f t with
    | Except.ok u =>
      match tryMapGo f ts with
      | Except.ok us => Except.ok (u :: us)
      | Except.error e => Except.error e
    | Except.error e => Except.error e

/-- Functional model of try_map. -/
def try_map {T U E : Type} (source : List T) (f : T → Except E U) :
    Except E (List U) :=
  tryMapGo f source

/-- View an Except-valued result as an execution outcome. -/
def ofExcept {U E : Type} : Except E (List U) → Outcome U E
  | Except.ok us => Outcome.ok us
  | Except.error e => Outcome.err e

/-- into_ok of the source: extract the success value of a Result whose error
type is uninhabited; the error branch is statically unreachable, there is no
runtime check. -/
def into_ok {A : Type} : Except Empty A → A
  | Except.ok a => a
  | Except.error e => e.elim

/-- map2 of the source: try_map with a transform that always succeeds and an
uninhabited error type, unwrapped with into_ok. -/
def map2 {T U : Type} (source : List T) (f : T → U) : List U :=
  into_ok (try_map source fun t => Except.ok (f t))

/-- Value-level behaviour of the loop for a stateless, possibly panicking
transform. -/
def goTOut {T U E : Type} (p : T → TOut U E) : List T → Outcome U E
  | [] => Outcome.ok []
  | t :: ts =>
    match p t with
    | TOut.ok u =>
      match goTOut p ts with
      | Outcome.ok us => Outcome.ok (u :: us)
      | o => o
    | TOut.err e => Outcome.err e
    | TOut.panic => Outcome.panicked

/-- Prepend an already-built prefix to a successful outcome. -/
def consOutcome {U E : Type} (pre : List U) : Outcome U E → Outcome U E
  | Outcome.ok us => Outcome.ok (pre ++ us)
  | o => o

/-! Concrete transforms used to evaluate the general theorems on concrete
inputs. -/

/-- A transform that always succeeds, adding one. -/
def wOneF : Nat → Except Unit Nat := fun v => Except.ok (v + 1)

/-- A transform that succeeds on 0 and fails on anything else. -/
def wTwoF : Nat → Except Unit Nat :=
  fun v => if v = 0 then Except.ok v else Except.error ()

/-- A transform that produces a fresh value on 0 and fails otherwise. -/
def wThreeF : Nat → Except Unit Nat :=
  fun v => if v = 0 then Except.ok (v + 5) else Except.error ()

/-- A transform that succeeds on 0 and panics on anything else. -/
def wFourP : Nat → TOut Nat Unit :=
  fun v => if v = 0 then TOut.ok (v + 7) else TOut.panic

/-- A stateful transform: multiplies each element by a running counter. -/
def wFiveF : Nat → Nat → Nat × TOut Nat Unit :=
  fun s t => (s + 1, TOut.ok (t * s))

/-- A transform that produces a fresh value on 0 and fails otherwise. -/
def wEightF : Nat → Except Unit Nat :=
  fun v => if v = 0 then Except.ok (v + 9) else Except.error ()

/-! Projection lemmas for the model's record builders. -/

@[simp]
theorem stepOk_dst {U : Type} (i : Nat) (u : U) (g : Guard U) :
    (stepOk i u g).dst = g.dst.set i (some u) := rfl

@[simp]
theorem stepOk_initialized {U : Type} (i : Nat) (u : U) (g : Guard U) :
    (stepOk i u g).initialized = g.initialized + 1 := rfl

@[simp]
theorem initGuard_dst {U : Type} (n : Nat) :
    (initGuard (U := U) n).dst = List.replicate n none := rfl

@[simp]
theorem initGuard_initialized {U : Type} (n : Nat) :
    (initGuard (U := U) n).initialized = 0 := rfl

@[simp]
theorem contOk_outcome {S T U E : Type} (i : Nat) (t : T) (u : U) (g : Guard U)
    (r : Run S T U E) : (contOk i t u g r).outcome = r.outcome := rfl

@[simp]
theorem contOk_buildEvents {S T U E : Type} (i : Nat) (t : T) (u : U)
    (g : Guard U) (r : Run S T U E) :
    (contOk i t u g r).buildEvents =
      Event.invoke i t :: Event.write i u ::
        Event.advance (g.initialized + 1) :: r.buildEvents := rfl

@[simp]
theorem contOk_loopStates {S T U E : Type} (i : Nat) (t : T) (u : U)
    (g : Guard U) (r : Run S T U E) :
    (contOk i t u g r).loopStates = g :: r.loopStates := rfl

@[simp]
theorem contOk_dropped {S T U E : Type} (i : Nat) (t : T) (u : U) (g : Guard U)
    (r : Run S T U E) : (contOk i t u g r).dropped = r.dropped := rfl

@[simp]
theorem contOk_disarmed {S T U E : Type} (i : Nat) (t : T) (u : U) (g : Guard U)
    (r : Run S T U E) : (contOk i t u g r).disarmed = r.disarmed := rfl

@[simp]
theorem contOk_finalS {S T U E : Type} (i : Nat) (t : T) (u : U) (g : Guard U)
    (r : Run S T U E) : (contOk i t u g r).finalS = r.finalS := rfl

@[simp]
theorem Guard_mk_dst {U : Type} (d : List (Option U)) (k : Nat) :
    (⟨d, k⟩ : Guard U).dst = d := rfl

@[simp]
theorem Guard_mk_initialized {U : Type} (d : List (Option U)) (k : Nat) :
    (⟨d, k⟩ : Guard U).initialized = k := rfl

@[simp]
theorem Run_mk_outcome {S T U E : Type} (o : Outcome U E)
    (evs : List (Event T U E)) (sts : List (Guard U)) (d : List U) (b : Bool)
    (s : S) : (⟨o, evs, sts, d, b, s⟩ : Run S T U E).outcome = o := rfl

@[simp]
theorem Run_mk_buildEvents {S T U E : Type} (o : Outcome U E)
    (evs : List (Event T U E)) (sts : List (Guard U)) (d : List U) (b : Bool)
    (s : S) : (⟨o, evs, sts, d, b, s⟩ : Run S T U E).buildEvents = evs := rfl

@[simp]
theorem Run_mk_loopStates {S T U E : Type} (o : Outcome U E)
    (evs : List (Event T U E)) (sts : List (Guard U)) (d : List U) (b : Bool)
    (s : S) : (⟨o, evs, sts, d, b, s⟩ : Run S T U E).loopStates = sts := rfl

@[simp]
theorem Run_mk_dropped {S T U E : Type} (o : Outcome U E)
    (evs : List (Event T U E)) (sts : List (Guard U)) (d : List U) (b : Bool)
    (s : S) : (⟨o, evs, sts, d, b, s⟩ : Run S T U E).dropped = d := rfl

@[simp]
theorem Run_mk_disarmed {S T U E : Type} (o : Outcome U E)
    (evs : List (Event T U E)) (sts : List (Guard U)) (d : List U) (b : Bool)
    (s : S) : (⟨o, evs, sts, d, b, s⟩ : Run S T U E).disarmed = b := rfl

@[simp]
theorem Run_mk_finalS {S T U E : Type} (o : Outcome U E)
    (evs : List (Event T U E)) (sts : List (Guard U)) (d : List U) (b : Bool)
    (s : S) : (⟨o, evs, sts, d, b, s⟩ : Run S T U E).finalS = s := rfl

/-! Small list facts used throughout. -/

theorem getD_set_self {α : Type} (l : List α) (i : Nat) (x d : α)
    (h : i < l.length) : (l.set i x).getD i d = x := by
  induction l generalizing i with
  | nil => simp at h
  | cons a l ih =>
    cases i with
    | zero => rfl
    | succ i => exact ih i (by simpa using h)

theorem getD_set_other {α : Type} (l : List α) (i j : Nat) (x d : α)
    (h : i ≠ j) : (l.set i x).getD j d = l.getD j d := by
  induction l generalizing i j with
  | nil => rfl
  | cons a l ih =>
    cases i with
    | zero =>
      cases j with
      | zero => exact absurd rfl h
      | succ j => rfl
    | succ i =>
      cases j with
      | zero => rfl
      | succ j => exact ih i j (fun hij => h (by omega))

theorem take_succ_set {α : Type} (l : List α) (i : Nat) (x : α)
    (h : i < l.length) : (l.set i x).take (i + 1) = l.take i ++ [x] := by
  induction l generalizing i with
  | nil => simp at h
  | cons a l ih =>
    cases i with
    | zero => rfl
    | succ i =>
      simp only [List.set, List.take, List.cons_append, List.cons.injEq,
        true_and]
      exact ih i (by simpa using h)

theorem filterMap_length_of_forall_isSome {α β : Type} (g : α → Option β) :
    ∀ l : List α, (∀ t ∈ l, (g t).isSome = true) →
      (l.filterMap g).length = l.length := by
  intro l
  induction l with
  | nil => intro _; rfl
  | cons a l ih =>
    intro h
    rcases Option.isSome_iff_exists.mp (h a (List.mem_cons_self a l)) with ⟨b, hb⟩
    simp only [List.filterMap_cons, hb, List.length_cons]
    rw [ih (fun t ht => h t (List.mem_cons_of_mem a ht))]

theorem mem_take_get? {α : Type} :
    ∀ (l : List α) (k : Nat) (t : α), t ∈ l.take k →
      ∃ j, j < k ∧ l.get? j = some t := by
  intro l
  induction l with
  | nil => intro k t ht; simp at ht
  | cons a l ih =>
    intro k t ht
    cases k with
    | zero => simp at ht
    | succ k =>
      simp only [List.take, List.mem_cons] at ht
      rcases ht with h | h
      · exact ⟨0, Nat.succ_pos k, by simp [h]⟩
      · rcases ih k t h with ⟨j, hj, hget⟩
        exact ⟨j + 1, by omega, by simpa using hget⟩

/-! Basic facts about the guard invariant. -/

theorem goodSt_init {U : Type} (n : Nat) : GoodSt n 0 (initGuard (U := U) n) := by
  refine ⟨rfl, by simp [initGuard], Nat.zero_le n, ?_⟩
  intro j hj
  constructor
  · intro hw
    exfalso
    simp [slotWritten, initGuard, List.getD_eq_getElem?_getD,
      List.getElem?_replicate, hj] at hw
  · intro hlt; exact absurd hlt (Nat.not_lt_zero j)

theorem liveSlice_init {U : Type} (n : Nat) :
    (initGuard (U := U) n).liveSlice = [] := by
  simp [Guard.liveSlice, initGuard]

theorem goodSt_step {U : Type} (n i : Nat) (g : Guard U) (u : U)
    (hg : GoodSt n i g) (hi : i < n) : GoodSt n (i + 1) (stepOk i u g) := by
  obtain ⟨hinit, hlen, hle, hslot⟩ := hg
  subst hinit
  refine ⟨rfl, by simp [hlen], by simp; omega, ?_⟩
  intro j hj
  by_cases hji : j = g.initialized
  · subst hji
    simp only [slotWritten, stepOk_dst, stepOk_initialized]
    rw [getD_set_self _ _ _ _ (by omega)]
    simp
  · simp only [slotWritten, stepOk_dst, stepOk_initialized]
    rw [getD_set_other _ _ _ _ _ (fun hij => hji hij.symm)]
    have hs := hslot j hj
    simp only [slotWritten] at hs
    constructor
    · intro hw; have := hs.mp hw; omega
    · intro hlt
      exact hs.mpr (by omega)

theorem liveSlice_step {U : Type} (n i : Nat) (g : Guard U) (u : U)
    (hg : GoodSt n i g) (hi : i < n) :
    (stepOk i u g).liveSlice = g.liveSlice ++ [u] := by
  obtain ⟨hinit, hlen, hle, hslot⟩ := hg
  simp only [Guard.liveSlice, stepOk, hinit]
  rw [take_succ_set _ _ _ (by omega)]
  simp

theorem liveSlice_final {U : Type} (n : Nat) (g : Guard U)
    (hg : GoodSt n n g) : g.dst.filterMap id = g.liveSlice := by
  obtain ⟨hinit, hlen, _, _⟩ := hg
  simp only [Guard.liveSlice, hinit]
  rw [← hlen, List.take_length]

theorem liveSlice_length {U : Type} (n i : Nat) (g : Guard U)
    (hg : GoodSt n i g) : g.liveSlice.length = i := by
  obtain ⟨hinit, hlen, hle, hslot⟩ := hg
  simp only [Guard.liveSlice, hinit]
  rw [filterMap_length_of_forall_isSome]
  · simp [List.length_take, hlen]; omega
  · intro t ht
    rcases mem_take_get? _ _ _ ht with ⟨j, hj, hget⟩
    have hw := (hslot j (by omega)).mpr (by omega)
    simp only [slotWritten, List.getD_eq_getElem?_getD, ← List.get?_eq_getElem?,
      hget] at hw
    simpa using hw

/-! Unfolding lemmas for the instrumented loop. -/

theorem runFrom_nil {S T U E : Type} (f : S → T → S × TOut U E) (i : Nat)
    (s : S) (g : Guard U) :
    runFrom f [] i s g =
      ⟨Outcome.ok (g.dst.filterMap id), [], [g], [], true, s⟩ := rfl

theorem runFrom_cons_ok {S T U E : Type} (f : S → T → S × TOut U E) (t : T)
    (ts : List T) (i : Nat) (s s1 : S) (u : U) (g : Guard U)
    (hf : f s t = (s1, TOut.ok u)) :
    runFrom f (t :: ts) i s g =
      contOk i t u g (runFrom f ts (i + 1) s1 (stepOk i u g)) := by
  simp [runFrom, hf]

theorem runFrom_cons_err {S T U E : Type} (f : S → T → S × TOut U E) (t : T)
    (ts : List T) (i : Nat) (s s1 : S) (e : E) (g : Guard U)
    (hf : f s t = (s1, TOut.err e)) :
    runFrom f (t :: ts) i s g =
      ⟨Outcome.err e, [Event.invoke i t], [g], g.liveSlice, false, s1⟩ := by
  simp [runFrom, hf]

theorem runFrom_cons_panic {S T U E : Type} (f : S → T → S × TOut U E) (t : T)
    (ts : List T) (i : Nat) (s s1 : S) (g : Guard U)
    (hf : f s t = (s1, TOut.panic)) :
    runFrom f (t :: ts) i s g =
      ⟨Outcome.panicked, [Event.invoke i t], [g], g.liveSlice, false, s1⟩ := by
  simp [runFrom, hf]

@[simp]
theorem invokedIdx_mk {S T U E : Type} (o : Outcome U E)
    (evs : List (Event T U E)) (sts : List (Guard U)) (d : List U) (b : Bool)
    (s : S) :
    invokedIdx (⟨o, evs, sts, d, b, s⟩ : Run S T U E) =
      evs.filterMap fun e =>
        match e with
        | Event.invoke i t => some (i, t)
        | _ => none := rfl

theorem invokedIdx_contOk {S T U E : Type} (i : Nat) (t : T) (u : U)
    (g : Guard U) (r : Run S T U E) :
    invokedIdx (contOk i t u g r) = (i, t) :: invokedIdx r := by
  simp [invokedIdx, contOk]

theorem invoked_contOk {S T U E : Type} (i : Nat) (t : T) (u : U)
    (g : Guard U) (r : Run S T U E) :
    invoked (contOk i t u g r) = t :: invoked r := by
  simp [invoked, invokedIdx_contOk]

/-! Core characterizations of the instrumented loop, by induction on the
remaining source elements. -/

theorem runFrom_invokedIdx {S T U E : Type} (f : S → T → S × TOut U E) :
    ∀ (ts : List T) (i : Nat) (s : S) (g : Guard U),
      invokedIdx (runFrom f ts i s g) =
        idxFrom i (ts.take (invokedIdx (runFrom f ts i s g)).length) := by
  intro ts
  induction ts with
  | nil => intro i s g; simp [runFrom_nil, idxFrom]
  | cons t ts ih =>
    intro i s g
    rcases hf : f s t with ⟨s1, r1⟩
    cases r1 with
    | ok u =>
      rw [runFrom_cons_ok f t ts i s s1 u g hf]
      rw [invokedIdx_contOk]
      simp only [List.length_cons, List.take_succ_cons, idxFrom,
        List.cons.injEq, true_and]
      exact ih (i + 1) s1 (stepOk i u g)
    | err e =>
      rw [runFrom_cons_err f t ts i s s1 e g hf]
      simp [idxFrom]
    | panic =>
      rw [runFrom_cons_panic f t ts i s s1 g hf]
      simp [idxFrom]

theorem runFrom_allOk {T U E : Type} (p : T → TOut U E) :
    ∀ (ts : List T) (n i : Nat) (g : Guard U),
      GoodSt n i g → i + ts.length = n →
      (∀ t ∈ ts, ∃ u, p t = TOut.ok u) →
      (runFrom (liftP p) ts i () g).outcome =
          Outcome.ok (g.liveSlice ++ ts.filterMap fun t => (p t).toOpt) ∧
        (runFrom (liftP p) ts i () g).dropped = [] ∧
        (runFrom (liftP p) ts i () g).disarmed = true := by
  intro ts
  induction ts with
  | nil =>
    intro n i g hg hn hall
    have hin : i = n := by simpa using hn
    subst hin
    rw [runFrom_nil]
    refine ⟨?_, rfl, rfl⟩
    simp [liveSlice_final i g hg]
  | cons t ts ih =>
    intro n i g hg hn hall
    rcases hall t (List.mem_cons_self t ts) with ⟨u, hu⟩
    have hf : liftP p () t = ((), TOut.ok u) := by simp [liftP, hu]
    rw [runFrom_cons_ok (liftP p) t ts i () () u g hf]
    have hi : i < n := by simp at hn; omega
    have hg1 : GoodSt n (i + 1) (stepOk i u g) := goodSt_step n i g u hg hi
    have hn1 : (i + 1) + ts.length = n := by simp at hn ⊢; omega
    rcases ih n (i + 1) (stepOk i u g) hg1 hn1
        (fun t' ht' => hall t' (List.mem_cons_of_mem t ht')) with ⟨ho, hd, hb⟩
    refine ⟨?_, by simpa using hd, by simpa using hb⟩
    rw [contOk_outcome, ho, liveSlice_step n i g u hg hi]
    simp [List.filterMap_cons, hu, TOut.toOpt]

theorem runFrom_firstErr {T U E : Type} (p : T → TOut U E) :
    ∀ (ts : List T) (n i : Nat) (g : Guard U) (k : Nat) (t : T) (e : E),
      GoodSt n i g → i + ts.length = n →
      ts.get? k = some t → p t = TOut.err e →
      (∀ j t', j < k → ts.get? j = some t' → ∃ u, p t' = TOut.ok u) →
      (runFrom (liftP p) ts i () g).outcome = Outcome.err e ∧
        invoked (runFrom (liftP p) ts i () g) = ts.take (k + 1) ∧
        (runFrom (liftP p) ts i () g).dropped =
          g.liveSlice ++ (ts.take k).filterMap (fun t' => (p t').toOpt) ∧
        (runFrom (liftP p) ts i () g).disarmed = false := by
  intro ts
  induction ts with
  | nil => intro n i g k t e _ _ hk; simp at hk
  | cons t0 ts ih =>
    intro n i g k t e hg hn hk hbad hok
    cases k with
    | zero =>
      have ht0 : t0 = t := by simpa using hk
      subst ht0
      have hf : liftP p () t0 = ((), TOut.err e) := by simp [liftP, hbad]
      rw [runFrom_cons_err (liftP p) t0 ts i () () e g hf]
      refine ⟨rfl, ?_, by simp, rfl⟩
      simp [invoked, invokedIdx]
    | succ k =>
      rcases hok 0 t0 (Nat.succ_pos k) (by simp) with ⟨u, hu⟩
      have hf : liftP p () t0 = ((), TOut.ok u) := by simp [liftP, hu]
      rw [runFrom_cons_ok (liftP p) t0 ts i () () u g hf]
      have hi : i < n := by simp at hn; omega
      have hg1 : GoodSt n (i + 1) (stepOk i u g) := goodSt_step n i g u hg hi
      have hn1 : (i + 1) + ts.length = n := by simp at hn ⊢; omega
      have hok1 : ∀ j t', j < k → ts.get? j = some t' → ∃ u', p t' = TOut.ok u' :=
        fun j t' hj hget => hok (j + 1) t' (by omega) (by simpa using hget)
      rcases ih n (i + 1) (stepOk i u g) k t e hg1 hn1 (by simpa using hk) hbad
          hok1 with ⟨ho, hinv, hd, hb⟩
      refine ⟨by simpa using ho, ?_, ?_, by simpa using hb⟩
      · rw [invoked_contOk, hinv]
        simp [List.take]
      · rw [contOk_dropped, hd, liveSlice_step n i g u hg hi]
        simp [List.take, List.filterMap_cons, hu, TOut.toOpt]

theorem runFrom_firstPanic {T U E : Type} (p : T → TOut U E) :
    ∀ (ts : List T) (n i : Nat) (g : Guard U) (k : Nat) (t : T),
      GoodSt n i g → i + ts.length = n →
      ts.get? k = some t → p t = TOut.panic →
      (∀ j t', j < k → ts.get? j = some t' → ∃ u, p t' = TOut.ok u) →
      (runFrom (liftP p) ts i () g).outcome = Outcome.panicked ∧
        invoked (runFrom (liftP p) ts i () g) = ts.take (k + 1) ∧
        (runFrom (liftP p) ts i () g).dropped =
          g.liveSlice ++ (ts.take k).filterMap (fun t' => (p t').toOpt) ∧
        (runFrom (liftP p) ts i () g).disarmed = false := by
  intro ts
  induction ts with
  | nil => intro n i g k t _ _ hk; simp at hk
  | cons t0 ts ih =>
    intro n i g k t hg hn hk hbad hok
    cases k with
    | zero =>
      have ht0 : t0 = t := by simpa using hk
      subst ht0
      have hf : liftP p () t0 = ((), TOut.panic) := by simp [liftP, hbad]
      rw [runFrom_cons_panic (liftP p) t0 ts i () () g hf]
      refine ⟨rfl, ?_, by simp, rfl⟩
      simp [invoked, invokedIdx]
    | succ k =>
      rcases hok 0 t0 (Nat.succ_pos k) (by simp) with ⟨u, hu⟩
      have hf : liftP p () t0 = ((), TOut.ok u) := by simp [liftP, hu]
      rw [runFrom_cons_ok (liftP p) t0 ts i () () u g hf]
      have hi : i < n := by simp at hn; omega
      have hg1 : GoodSt n (i + 1) (stepOk i u g) := goodSt_step n i g u hg hi
      have hn1 : (i + 1) + ts.length = n := by simp at hn ⊢; omega
      have hok1 : ∀ j t', j < k → ts.get? j = some t' → ∃ u', p t' = TOut.ok u' :=
        fun j t' hj hget => hok (j + 1) t' (by omega) (by simpa using hget)
      rcases ih n (i + 1) (stepOk i u g) k t hg1 hn1 (by simpa using hk) hbad
          hok1 with ⟨ho, hinv, hd, hb⟩
      refine ⟨by simpa using ho, ?_, ?_, by simpa using hb⟩
      · rw [invoked_contOk, hinv]
        simp [List.take]
      · rw [contOk_dropped, hd, liveSlice_step n i g u hg hi]
        simp [List.take, List.filterMap_cons, hu, TOut.toOpt]

theorem runFrom_loopStates {S T U E : Type} (f : S → T → S × TOut U E) :
    ∀ (ts : List T) (n i : Nat) (s : S) (g : Guard U),
      GoodSt n i g → i + ts.length = n →
      ∀ g' ∈ (runFrom f ts i s g).loopStates, ExactSt n g' := by
  intro ts
  induction ts with
  | nil =>
    intro n i s g hg hn g' hg'
    rw [runFrom_nil] at hg'
    simp only [Run_mk_loopStates, List.mem_singleton] at hg'
    subst hg'
    exact hg.2
  | cons t ts ih =>
    intro n i s g hg hn g' hg'
    rcases hf : f s t with ⟨s1, r1⟩
    have hi : i < n := by simp at hn; omega
    cases r1 with
    | ok u =>
      rw [runFrom_cons_ok f t ts i s s1 u g hf, contOk_loopStates] at hg'
      rcases List.mem_cons.mp hg' with h | h
      · subst h; exact hg.2
      · exact ih n (i + 1) s1 (stepOk i u g) (goodSt_step n i g u hg hi)
          (by simp at hn ⊢; omega) g' h
    | err e =>
      rw [runFrom_cons_err f t ts i s s1 e g hf] at hg'
      simp only [Run_mk_loopStates, List.mem_singleton] at hg'
      subst hg'
      exact hg.2
    | panic =>
      rw [runFrom_cons_panic f t ts i s s1 g hf] at hg'
      simp only [Run_mk_loopStates, List.mem_singleton] at hg'
      subst hg'
      exact hg.2

theorem runFrom_replay_inv {S T U E : Type} (f : S → T → S × TOut U E) :
    ∀ (ts : List T) (n i : Nat) (s : S) (g : Guard U),
      GoodSt n i g → i + ts.length = n →
      ∀ m : Nat,
        (replay g ((runFrom f ts i s g).buildEvents.take m)).initialized ≤ n ∧
          ∀ j,
            j < (replay g ((runFrom f ts i s g).buildEvents.take m)).initialized
            → slotWritten (replay g ((runFrom f ts i s g).buildEvents.take m))
                j = true := by
  intro ts
  induction ts with
  | nil =>
    intro n i s g hg hn m
    have hinit := hg.1
    have hle := hg.2.2.1
    have hslot := hg.2.2.2
    rw [runFrom_nil]
    simp only [Run_mk_buildEvents, List.take_nil, replay]
    exact ⟨by omega, fun j hj => (hslot j (by omega)).mpr (by omega)⟩
  | cons t ts ih =>
    intro n i s g hg hn m
    rcases hf : f s t with ⟨s1, r1⟩
    have hinit := hg.1
    have hlen := hg.2.1
    have hle := hg.2.2.1
    have hslot := hg.2.2.2
    have hi : i < n := by simp at hn; omega
    cases r1 with
    | ok u =>
      rw [runFrom_cons_ok f t ts i s s1 u g hf, contOk_buildEvents]
      match m with
      | 0 =>
        simp only [List.take_zero, replay]
        exact ⟨by omega, fun j hj => (hslot j (by omega)).mpr (by omega)⟩
      | 1 =>
        simp only [List.take_succ_cons, List.take_zero, replay, applyEvent]
        exact ⟨by omega, fun j hj => (hslot j (by omega)).mpr (by omega)⟩
      | 2 =>
        simp only [List.take_succ_cons, List.take_zero, replay, applyEvent,
          Guard_mk_initialized]
        refine ⟨by omega, ?_⟩
        intro j hj
        simp only [slotWritten, Guard_mk_dst]
        rw [getD_set_other _ _ _ _ _ (by omega : i ≠ j)]
        have hw := (hslot j (by omega)).mpr (by omega)
        simpa [slotWritten] using hw
      | (m' + 3) =>
        simp only [List.take_succ_cons, replay, applyEvent]
        exact ih n (i + 1) s1 (stepOk i u g) (goodSt_step n i g u hg hi)
          (by simp at hn ⊢; omega) m'
    | err e =>
      rw [runFrom_cons_err f t ts i s s1 e g hf]
      match m with
      | 0 =>
        simp only [Run_mk_buildEvents, List.take_zero, replay]
        exact ⟨by omega, fun j hj => (hslot j (by omega)).mpr (by omega)⟩
      | (m' + 1) =>
        simp only [Run_mk_buildEvents, List.take_succ_cons, List.take_nil,
          replay, applyEvent]
        exact ⟨by omega, fun j hj => (hslot j (by omega)).mpr (by omega)⟩
    | panic =>
      rw [runFrom_cons_panic f t ts i s s1 g hf]
      match m with
      | 0 =>
        simp only [Run_mk_buildEvents, List.take_zero, replay]
        exact ⟨by omega, fun j hj => (hslot j (by omega)).mpr (by omega)⟩
      | (m' + 1) =>
        simp only [Run_mk_buildEvents, List.take_succ_cons, List.take_nil,
          replay, applyEvent]
        exact ⟨by omega, fun j hj => (hslot j (by omega)).mpr (by omega)⟩

theorem runFrom_replay_advance {S T U E : Type} (f : S → T → S × TOut U E) :
    ∀ (ts : List T) (n i : Nat) (s : S) (g : Guard U),
      GoodSt n i g → i + ts.length = n →
      ∀ m : Nat,
        (replay g
              ((runFrom f ts i s g).buildEvents.take (m + 1))).initialized =
            (replay g ((runFrom f ts i s g).buildEvents.take m)).initialized ∨
          ((replay g
                ((runFrom f ts i s g).buildEvents.take (m + 1))).initialized =
              (replay g
                  ((runFrom f ts i s g).buildEvents.take m)).initialized + 1 ∧
            slotWritten (replay g ((runFrom f ts i s g).buildEvents.take m))
              (replay g
                  ((runFrom f ts i s g).buildEvents.take m)).initialized =
              true) := by
  intro ts
  induction ts with
  | nil =>
    intro n i s g hg hn m
    rw [runFrom_nil]
    simp only [Run_mk_buildEvents, List.take_nil, replay]
    exact Or.inl trivial
  | cons t ts ih =>
    intro n i s g hg hn m
    rcases hf : f s t with ⟨s1, r1⟩
    have hinit := hg.1
    have hlen := hg.2.1
    have hi : i < n := by simp at hn; omega
    cases r1 with
    | ok u =>
      rw [runFrom_cons_ok f t ts i s s1 u g hf, contOk_buildEvents]
      match m with
      | 0 =>
        simp only [List.take_succ_cons, List.take_zero, replay, applyEvent]
        exact Or.inl trivial
      | 1 =>
        simp only [List.take_succ_cons, List.take_zero, replay, applyEvent,
          Guard_mk_initialized]
        exact Or.inl trivial
      | 2 =>
        simp only [List.take_succ_cons, List.take_zero, replay, applyEvent,
          Guard_mk_initialized]
        refine Or.inr ⟨trivial, ?_⟩
        simp only [slotWritten, Guard_mk_dst, Guard_mk_initialized, hinit]
        rw [getD_set_self _ _ _ _ (by omega)]
        rfl
      | (m' + 3) =>
        simp only [List.take_succ_cons, replay, applyEvent]
        exact ih n (i + 1) s1 (stepOk i u g) (goodSt_step n i g u hg hi)
          (by simp at hn ⊢; omega) m'
    | err e =>
      rw [runFrom_cons_err f t ts i s s1 e g hf]
      match m with
      | 0 =>
        simp only [Run_mk_buildEvents, List.take_succ_cons, List.take_zero,
          List.take_nil, replay, applyEvent]
        exact Or.inl trivial
      | (m' + 1) =>
        simp only [Run_mk_buildEvents, List.take_succ_cons, List.take_nil,
          replay, applyEvent]
        exact Or.inl trivial
    | panic =>
      rw [runFrom_cons_panic f t ts i s s1 g hf]
      match m with
      | 0 =>
        simp only [Run_mk_buildEvents, List.take_succ_cons, List.take_zero,
          List.take_nil, replay, applyEvent]
        exact Or.inl trivial
      | (m' + 1) =>
        simp only [Run_mk_buildEvents, List.take_succ_cons, List.take_nil,
          replay, applyEvent]
        exact Or.inl trivial

/-! Agreement between the functional model and the instrumented one. -/

theorem goTOut_tryMapGo {T U E : Type} (f : T → Except E U) :
    ∀ ts : List T,
      goTOut (fun t => exceptToTOut (f t)) ts = ofExcept (tryMapGo f ts) := by
  intro ts
  induction ts with
  | nil => rfl
  | cons t ts ih =>
    cases hf : f t with
    | ok u =>
      have hg1 : exceptToTOut (f t) = TOut.ok u := by rw [hf]; rfl
      simp only [goTOut, tryMapGo, hf, hg1, ih]
      cases tryMapGo f ts with
      | ok us => rfl
      | error e => rfl
    | error e =>
      have hg1 : exceptToTOut (f t) = TOut.err e := by rw [hf]; rfl
      simp only [goTOut, tryMapGo, hf, hg1]
      rfl

theorem consOutcome_snoc {U E : Type} (pre : List U) (u : U)
    (o : Outcome U E) :
    consOutcome (pre ++ [u]) o =
      consOutcome pre
        (match o with
          | Outcome.ok us => Outcome.ok (u :: us)
          | o => o) := by
  cases o with
  | ok us => simp [consOutcome]
  | err e => rfl
  | panicked => rfl

theorem runFrom_outcome_go {T U E : Type} (p : T → TOut U E) :
    ∀ (ts : List T) (n i : Nat) (g : Guard U),
      GoodSt n i g → i + ts.length = n →
      (runFrom (liftP p) ts i () g).outcome =
        consOutcome g.liveSlice (goTOut p ts) := by
  intro ts
  induction ts with
  | nil =>
    intro n i g hg hn
    have hin : i = n := by simpa using hn
    subst hin
    rw [runFrom_nil]
    simp [liveSlice_final i g hg, goTOut, consOutcome]
  | cons t ts ih =>
    intro n i g hg hn
    have hi : i < n := by simp at hn; omega
    cases hp : p t with
    | ok u =>
      have hf : liftP p () t = ((), TOut.ok u) := by simp [liftP, hp]
      rw [runFrom_cons_ok (liftP p) t ts i () () u g hf, contOk_outcome]
      rw [ih n (i + 1) (stepOk i u g) (goodSt_step n i g u hg hi)
        (by simp at hn ⊢; omega)]
      rw [liveSlice_step n i g u hg hi, consOutcome_snoc]
      simp only [goTOut, hp]
    | err e =>
      have hf : liftP p () t = ((), TOut.err e) := by simp [liftP, hp]
      rw [runFrom_cons_err (liftP p) t ts i () () e g hf]
      simp only [Run_mk_outcome, goTOut, hp, consOutcome]
    | panic =>
      have hf : liftP p () t = ((), TOut.panic) := by simp [liftP, hp]
      rw [runFrom_cons_panic (liftP p) t ts i () () g hf]
      simp only [Run_mk_outcome, goTOut, hp, consOutcome]

theorem tryMapRun_outcome_try_map {T U E : Type} (source : List T)
    (f : T → Except E U) :
    (tryMapRun source (liftF f) ()).outcome = ofExcept (try_map source f) := by
  have h1 : liftF f = liftP fun t => exceptToTOut (f t) := rfl
  rw [tryMapRun, h1,
    runFrom_outcome_go _ source source.length 0 _ (goodSt_init _) (by simp)]
  rw [liveSlice_init, goTOut_tryMapGo]
  simp only [try_map]
  cases tryMapGo f source <;> simp [consOutcome, ofExcept]

/-! Bridging helpers for the claim theorems. -/

theorem toOpt_comp_exceptToTOut {T U E : Type} (f : T → Except E U) :
    (fun t => (exceptToTOut (f t)).toOpt) = okOf f := by
  funext t
  simp only [okOf]
  cases f t <;> rfl

theorem idxFrom_map_snd {T : Type} :
    ∀ (i : Nat) (l : List T), (idxFrom i l).map Prod.snd = l := by
  intro i l
  induction l generalizing i with
  | nil => rfl
  | cons t ts ih => simp [idxFrom, ih]

theorem get?_some_lt_length {T : Type} {l : List T} {k : Nat} {t : T}
    (h : l.get? k = some t) : k < l.length := by
  by_contra hk
  rw [List.get?_eq_none.mpr (by omega)] at h
  exact Option.noConfusion h

theorem tryMapGo_allOk {T U E : Type} (f : T → Except E U) :
    ∀ ts : List T, (∀ t ∈ ts, ∃ u, f t = Except.ok u) →
      ∃ out, tryMapGo f ts = Except.ok out ∧ out.length = ts.length ∧
        ∀ j t, ts.get? j = some t →
          ∃ u, f t = Except.ok u ∧ out.get? j = some u := by
  intro ts
  induction ts with
  | nil =>
    intro _
    exact ⟨[], rfl, rfl, by intro j t hget; simp at hget⟩
  | cons t0 ts ih =>
    intro h
    rcases h t0 (List.mem_cons_self t0 ts) with ⟨u0, hu0⟩
    rcases ih (fun t ht => h t (List.mem_cons_of_mem t0 ht)) with
      ⟨out, hout, hlen, hidx⟩
    refine ⟨u0 :: out, ?_, by simp [hlen], ?_⟩
    · simp only [tryMapGo, hu0, hout]
    · intro j t hget
      cases j with
      | zero =>
        have ht0 : t0 = t := by simpa using hget
        subst ht0
        exact ⟨u0, hu0, rfl⟩
      | succ j =>
        rcases hidx j t (by simpa using hget) with ⟨u, hu, hget'⟩
        exact ⟨u, hu, by simpa using hget'⟩

theorem tryMapGo_ok_comp {T U E : Type} (f : T → U) :
    ∀ ts : List T,
      tryMapGo (fun t => (Except.ok (f t) : Except E U)) ts =
        Except.ok (ts.map f) := by
  intro ts
  induction ts with
  | nil => rfl
  | cons t ts ih => simp only [tryMapGo, ih, List.map]

theorem okOf_isSome_on_take {T U E : Type} (source : List T)
    (f : T → Except E U) (k : Nat)
    (hok : ∀ j t', j < k → source.get? j = some t' →
      ∃ u, f t' = Except.ok u) :
    ∀ t' ∈ source.take k, (okOf f t').isSome = true := by
  intro t' ht'
  rcases mem_take_get? source k t' ht' with ⟨j, hj, hget⟩
  rcases hok j t' hj hget with ⟨u, hu⟩
  simp [okOf, hu]

/-! The ten claims. -/

/-- C1: for every array and every transform that succeeds on every element,
try_map returns Ok of an array of the same length whose element at index i is
the success value of f on source[i], for every i, preserving order. -/
theorem try_map_success_correct {T U E : Type} (source : List T)
    (f : T → Except E U) (h : ∀ t ∈ source, ∃ u, f t = Except.ok u) :
    ∃ out, try_map source f = Except.ok out ∧ out.length = source.length ∧
      ∀ j t, source.get? j = some t →
        ∃ u, f t = Except.ok u ∧ out.get? j = some u :=
  tryMapGo_allOk f source h

/-- C2: if the transform first returns an error at index k (it succeeds on
every index below k), try_map invokes the transform exactly k + 1 times, on
the source elements at indices 0..=k in order and on nothing beyond, and
returns that error value as Err. -/
theorem try_map_short_circuit {T U E : Type} (source : List T)
    (f : T → Except E U) (k : Nat) (t : T) (e : E)
    (hk : source.get? k = some t) (hfail : f t = Except.error e)
    (hok : ∀ j t', j < k → source.get? j = some t' →
      ∃ u, f t' = Except.ok u) :
    invoked (tryMapRun source (liftF f) ()) = source.take (k + 1) ∧
      (invoked (tryMapRun source (liftF f) ())).length = k + 1 ∧
      invokedIdx (tryMapRun source (liftF f) ()) =
        idxFrom 0 (source.take (k + 1)) ∧
      (tryMapRun source (liftF f) ()).outcome = Outcome.err e := by
  have hlift : liftF f = liftP fun t' => exceptToTOut (f t') := rfl
  have hbad : (fun t' => exceptToTOut (f t')) t = TOut.err e := by
    simp only [hfail]; rfl
  have hok' : ∀ j t', j < k → source.get? j = some t' →
      ∃ u, (fun t'' => exceptToTOut (f t'')) t' = TOut.ok u := by
    intro j t' hj hget
    rcases hok j t' hj hget with ⟨u, hu⟩
    exact ⟨u, by simp only [hu]; rfl⟩
  have hmain := runFrom_firstErr (fun t' => exceptToTOut (f t')) source
    source.length 0 (initGuard source.length) k t e (goodSt_init _)
    (by simp) hk hbad hok'
  rw [tryMapRun, hlift]
  have hklt : k < source.length := get?_some_lt_length hk
  have hlen : (invoked
      (runFrom (liftP fun t' => exceptToTOut (f t')) source 0 ()
        (initGuard source.length))).length = k + 1 := by
    rw [hmain.2.1]
    simp [List.length_take]
    omega
  refine ⟨hmain.2.1, hlen, ?_, hmain.1⟩
  have hidx := runFrom_invokedIdx (liftP fun t' => exceptToTOut (f t'))
    source 0 () (initGuard source.length)
  have hlen' : (invokedIdx
      (runFrom (liftP fun t' => exceptToTOut (f t')) source 0 ()
        (initGuard source.length))).length = k + 1 := by
    have : (invoked
        (runFrom (liftP fun t' => exceptToTOut (f t')) source 0 ()
          (initGuard source.length))).length = (invokedIdx
        (runFrom (liftP fun t' => exceptToTOut (f t')) source 0 ()
          (initGuard source.length))).length := by
      simp [invoked]
    omega
  rw [hidx, hlen']

/-- C3: if the transform first returns an error at index k, the values the
guard destroys at teardown are exactly the k output elements produced for
indices 0..k-1, each destroyed exactly once (the dropped list equals that
output prefix), and the guard was not disarmed.  A reference-counted value
produced once per success is therefore released exactly once, restoring its
pre-call count. -/
theorem try_map_no_leak_on_err {T U E : Type} (source : List T)
    (f : T → Except E U) (k : Nat) (t : T) (e : E)
    (hk : source.get? k = some t) (hfail : f t = Except.error e)
    (hok : ∀ j t', j < k → source.get? j = some t' →
      ∃ u, f t' = Except.ok u) :
    (tryMapRun source (liftF f) ()).dropped =
        (source.take k).filterMap (okOf f) ∧
      (tryMapRun source (liftF f) ()).dropped.length = k ∧
      (tryMapRun source (liftF f) ()).disarmed = false := by
  have hlift : liftF f = liftP fun t' => exceptToTOut (f t') := rfl
  have hbad : (fun t' => exceptToTOut (f t')) t = TOut.err e := by
    simp only [hfail]; rfl
  have hok' : ∀ j t', j < k → source.get? j = some t' →
      ∃ u, (fun t'' => exceptToTOut (f t'')) t' = TOut.ok u := by
    intro j t' hj hget
    rcases hok j t' hj hget with ⟨u, hu⟩
    exact ⟨u, by simp only [hu]; rfl⟩
  have hmain := runFrom_firstErr (fun t' => exceptToTOut (f t')) source
    source.length 0 (initGuard source.length) k t e (goodSt_init _)
    (by simp) hk hbad hok'
  rw [tryMapRun, hlift]
  have hdrop := hmain.2.2.1
  rw [liveSlice_init, List.nil_append, toOpt_comp_exceptToTOut f] at hdrop
  have hklt : k < source.length := get?_some_lt_length hk
  refine ⟨hdrop, ?_, hmain.2.2.2⟩
  rw [hdrop,
    filterMap_length_of_forall_isSome (okOf f) (source.take k)
      (okOf_isSome_on_take source f k hok)]
  simp [List.length_take]
  omega

/-- C4: if the transform panics (non-local unwind) at index i, having
succeeded on all indices below i, the unwind propagates (outcome panicked),
and during unwinding the guard destroys exactly the i output elements of the
live prefix [0, i), each exactly once; the guard was not disarmed. -/
theorem try_map_no_leak_on_unwind {T U E : Type} (source : List T)
    (p : T → TOut U E) (i : Nat) (t : T)
    (hi : source.get? i = some t) (hp : p t = TOut.panic)
    (hok : ∀ j t', j < i → source.get? j = some t' →
      ∃ u, p t' = TOut.ok u) :
    (tryMapRun source (liftP p) ()).outcome = Outcome.panicked ∧
      (tryMapRun source (liftP p) ()).dropped =
        (source.take i).filterMap (fun t' => (p t').toOpt) ∧
      (tryMapRun source (liftP p) ()).dropped.length = i ∧
      (tryMapRun source (liftP p) ()).disarmed = false := by
  have hmain := runFrom_firstPanic p source source.length 0
    (initGuard source.length) i t (goodSt_init _) (by simp) hi hp hok
  rw [tryMapRun]
  have hdrop := hmain.2.2.1
  rw [liveSlice_init, List.nil_append] at hdrop
  have hilt : i < source.length := get?_some_lt_length hi
  refine ⟨hmain.1, hdrop, ?_, hmain.2.2.2⟩
  rw [hdrop]
  rw [filterMap_length_of_forall_isSome (fun t' => (p t').toOpt)
    (source.take i) ?_]
  · simp [List.length_take]; omega
  · intro t' ht'
    rcases mem_take_get? source i t' ht' with ⟨j, hj, hget⟩
    rcases hok j t' hj hget with ⟨u, hu⟩
    simp [hu, TOut.toOpt]

/-- C5: throughout every execution, with N the source length: at every loop
head (and after the loop) the counter is at most N, the storage has N slots,
and exactly the slots below the counter hold a live value (contiguous live
prefix, no gaps); after every micro-event prefix the counter is at most N and
every slot below it is written (the counter never overstates initialization);
and each micro-step either leaves the counter unchanged or advances it by
exactly 1, and in the latter case the slot the counter grows over was already
durably written before the advance. -/
theorem try_map_live_inv {S T U E : Type} (source : List T)
    (f : S → T → S × TOut U E) (s0 : S) :
    (∀ g ∈ (tryMapRun source f s0).loopStates, ExactSt source.length g) ∧
      (∀ m : Nat,
        (replay (initGuard source.length)
            ((tryMapRun source f s0).buildEvents.take m)).initialized ≤
            source.length ∧
          ∀ j, j < (replay (initGuard source.length)
              ((tryMapRun source f s0).buildEvents.take m)).initialized →
            slotWritten (replay (initGuard source.length)
              ((tryMapRun source f s0).buildEvents.take m)) j = true) ∧
      ∀ m : Nat,
        (replay (initGuard source.length)
              ((tryMapRun source f s0).buildEvents.take (m + 1))).initialized =
            (replay (initGuard source.length)
                ((tryMapRun source f s0).buildEvents.take m)).initialized ∨
          ((replay (initGuard source.length)
                ((tryMapRun source f s0).buildEvents.take (m + 1))).initialized
                =
              (replay (initGuard source.length)
                  ((tryMapRun source f s0).buildEvents.take m)).initialized
                + 1 ∧
            slotWritten
              (replay (initGuard source.length)
                ((tryMapRun source f s0).buildEvents.take m))
              (replay (initGuard source.length)
                  ((tryMapRun source f s0).buildEvents.take m)).initialized =
              true) := by
  refine ⟨?_, ?_, ?_⟩
  · exact runFrom_loopStates f source source.length 0 s0 _ (goodSt_init _)
      (by simp)
  · exact runFrom_replay_inv f source source.length 0 s0 _ (goodSt_init _)
      (by simp)
  · exact runFrom_replay_advance f source source.length 0 s0 _
      (goodSt_init _) (by simp)

/-- C6: map2 is try_map with an always-succeeding transform and the
uninhabited error type, unwrapped by into_ok without a runtime check; that
try_map never returns an error and both yield the elementwise image of the
source. -/
theorem map2_refines_try_map {T U : Type} (source : List T) (f : T → U) :
    map2 source f = source.map f ∧
      try_map source (fun t => (Except.ok (f t) : Except Empty U)) =
        Except.ok (source.map f) := by
  have h := tryMapGo_ok_comp (E := Empty) f source
  constructor
  · rw [map2, try_map, h, into_ok]
  · rw [try_map, h]

/-- C7: try_map consumes the source strictly left to right: the transform's
invocations, in temporal order, are exactly the source elements at indices
0, 1, 2, ... up to the point where the run stops, each index once, paired
with its element — so a stateful transform observes elements in index
order, each moved out exactly once. -/
theorem try_map_in_order {S T U E : Type} (source : List T)
    (f : S → T → S × TOut U E) (s0 : S) :
    invokedIdx (tryMapRun source f s0) =
        idxFrom 0
          (source.take (invokedIdx (tryMapRun source f s0)).length) ∧
      invoked (tryMapRun source f s0) =
        source.take (invokedIdx (tryMapRun source f s0)).length := by
  have h : invokedIdx (tryMapRun source f s0) =
      idxFrom 0 (source.take (invokedIdx (tryMapRun source f s0)).length) :=
    runFrom_invokedIdx f source 0 s0 (initGuard source.length)
  refine ⟨h, ?_⟩
  rw [invoked]
  conv_lhs => rw [h]
  rw [idxFrom_map_snd]

/-- C8: when the transform first fails at index k, the builder moved out only
the source elements at indices 0..=k (so later source elements are left to
the caller's environment), and its teardown destroys exactly the output
values of the live prefix [0, k): every destroyed value is the success value
the transform produced for some source index below k, and nothing else is
touched. -/
theorem try_map_frame {T U E : Type} (source : List T) (f : T → Except E U)
    (k : Nat) (t : T) (e : E) (hk : source.get? k = some t)
    (hfail : f t = Except.error e)
    (hok : ∀ j t', j < k → source.get? j = some t' →
      ∃ u, f t' = Except.ok u) :
    invoked (tryMapRun source (liftF f) ()) = source.take (k + 1) ∧
      (tryMapRun source (liftF f) ()).dropped =
        (source.take k).filterMap (okOf f) ∧
      ∀ u ∈ (tryMapRun source (liftF f) ()).dropped,
        ∃ j t', j < k ∧ source.get? j = some t' ∧ f t' = Except.ok u := by
  have hlift : liftF f = liftP fun t' => exceptToTOut (f t') := rfl
  have hbad : (fun t' => exceptToTOut (f t')) t = TOut.err e := by
    simp only [hfail]; rfl
  have hok' : ∀ j t', j < k → source.get? j = some t' →
      ∃ u, (fun t'' => exceptToTOut (f t'')) t' = TOut.ok u := by
    intro j t' hj hget
    rcases hok j t' hj hget with ⟨u, hu⟩
    exact ⟨u, by simp only [hu]; rfl⟩
  have hmain := runFrom_firstErr (fun t' => exceptToTOut (f t')) source
    source.length 0 (initGuard source.length) k t e (goodSt_init _)
    (by simp) hk hbad hok'
  rw [tryMapRun, hlift]
  have hdrop := hmain.2.2.1
  rw [liveSlice_init, List.nil_append, toOpt_comp_exceptToTOut f] at hdrop
  refine ⟨hmain.2.1, hdrop, ?_⟩
  intro u hu
  rw [hdrop] at hu
  rcases List.mem_filterMap.mp hu with ⟨t', ht', hok2⟩
  rcases mem_take_get? source k t' ht' with ⟨j, hj, hget⟩
  refine ⟨j, t', hj, hget, ?_⟩
  revert hok2
  unfold okOf
  cases f t' with
  | ok u' => intro h2; simpa using h2
  | error e' => intro h2; simp at h2

/-- C9: for the empty source, try_map returns Ok of the empty array, map2
returns the empty array, the instrumented run succeeds with the empty array,
and the transform is never invoked. -/
theorem try_map_zero_length {S T U E : Type} (f : T → Except E U) (g : T → U)
    (fs : S → T → S × TOut U E) (s0 : S) :
    try_map ([] : List T) f = Except.ok [] ∧ map2 ([] : List T) g = [] ∧
      (tryMapRun ([] : List T) fs s0).outcome = Outcome.ok [] ∧
      invoked (tryMapRun ([] : List T) fs s0) = [] := by
  refine ⟨rfl, rfl, rfl, rfl⟩

/-- C10: mapping with the transform that wraps each element in Ok returns Ok
of the original array unchanged, and map2 with the identity function returns
the original array. -/
theorem try_map_identity {T E : Type} (a : List T) :
    try_map a (fun x => (Except.ok x : Except E T)) = Except.ok a ∧
      map2 a (fun x => x) = a := by
  have hmap : List.map (fun x : T => x) a = a := by simp
  have h := tryMapGo_ok_comp (E := E) (fun x => x) a
  rw [hmap] at h
  constructor
  · exact h
  · rw [map2, try_map]
    have h' := tryMapGo_ok_comp (E := Empty) (fun x => x) a
    rw [hmap] at h'
    rw [h', into_ok]

/-! Witnesses: each general theorem with hypotheses, evaluated on a concrete
input. -/

/-- Witness for C1: the always-succeeding transform on [1, 2, 3]. -/
theorem try_map_success_correct_witness :
    (∀ t ∈ ([1, 2, 3] : List Nat), ∃ u, wOneF t = Except.ok u) ∧
      ∃ out, try_map [1, 2, 3] wOneF = Except.ok out ∧
        out.length = ([1, 2, 3] : List Nat).length ∧
        ∀ j t, ([1, 2, 3] : List Nat).get? j = some t →
          ∃ u, wOneF t = Except.ok u ∧ out.get? j = some u :=
  ⟨fun t _ => ⟨t + 1, rfl⟩,
    try_map_success_correct [1, 2, 3] wOneF (fun t _ => ⟨t + 1, rfl⟩)⟩

/-- Witness for C2: failure first occurs at index 2 of [0, 0, 5]. -/
theorem try_map_short_circuit_witness :
    invoked (tryMapRun [0, 0, 5] (liftF wTwoF) ()) =
        ([0, 0, 5] : List Nat).take (2 + 1) ∧
      (invoked (tryMapRun [0, 0, 5] (liftF wTwoF) ())).length = 2 + 1 ∧
      invokedIdx (tryMapRun [0, 0, 5] (liftF wTwoF) ()) =
        idxFrom 0 (([0, 0, 5] : List Nat).take (2 + 1)) ∧
      (tryMapRun [0, 0, 5] (liftF wTwoF) ()).outcome = Outcome.err () :=
  try_map_short_circuit [0, 0, 5] wTwoF 2 5 () rfl rfl
    (by
      intro j t' hj hget
      have hj2 : j = 0 ∨ j = 1 := by omega
      rcases hj2 with h | h <;> subst h <;> simp at hget <;> subst hget <;>
        exact ⟨0, rfl⟩)

/-- Witness for C3: failure first occurs at index 2 of [0, 0, 5]; the two
produced outputs are destroyed, each once. -/
theorem try_map_no_leak_on_err_witness :
    (tryMapRun [0, 0, 5] (liftF wThreeF) ()).dropped =
        (([0, 0, 5] : List Nat).take 2).filterMap (okOf wThreeF) ∧
      (tryMapRun [0, 0, 5] (liftF wThreeF) ()).dropped.length = 2 ∧
      (tryMapRun [0, 0, 5] (liftF wThreeF) ()).disarmed = false :=
  try_map_no_leak_on_err [0, 0, 5] wThreeF 2 5 () rfl rfl
    (by
      intro j t' hj hget
      have hj2 : j = 0 ∨ j = 1 := by omega
      rcases hj2 with h | h <;> subst h <;> simp at hget <;> subst hget <;>
        exact ⟨5, rfl⟩)

/-- Witness for C4: the transform panics at index 2 of [0, 0, 5]; the two
produced outputs are destroyed during unwinding. -/
theorem try_map_no_leak_on_unwind_witness :
    (tryMapRun [0, 0, 5] (liftP wFourP) ()).outcome = Outcome.panicked ∧
      (tryMapRun [0, 0, 5] (liftP wFourP) ()).dropped =
        (([0, 0, 5] : List Nat).take 2).filterMap
          (fun t' => (wFourP t').toOpt) ∧
      (tryMapRun [0, 0, 5] (liftP wFourP) ()).dropped.length = 2 ∧
      (tryMapRun [0, 0, 5] (liftP wFourP) ()).disarmed = false :=
  try_map_no_leak_on_unwind [0, 0, 5] wFourP 2 5 rfl rfl
    (by
      intro j t' hj hget
      have hj2 : j = 0 ∨ j = 1 := by omega
      rcases hj2 with h | h <;> subst h <;> simp at hget <;> subst hget <;>
        exact ⟨7, rfl⟩)

/-- Witness for C5: the fresh guard is a loop state of a concrete run and
satisfies the exact live-prefix invariant. -/
theorem try_map_live_inv_witness :
    (⟨[none, none], 0⟩ : Guard Nat) ∈
        (tryMapRun [3, 4] wFiveF 1).loopStates ∧
      ExactSt ([3, 4] : List Nat).length (⟨[none, none], 0⟩ : Guard Nat) :=
  ⟨by decide,
    (try_map_live_inv [3, 4] wFiveF 1).1 ⟨[none, none], 0⟩ (by decide)⟩

/-- Witness for C8: failure first occurs at index 2 of [0, 0, 5]; only the
two live-prefix outputs are destroyed, and only indices 0..=2 are consumed. -/
theorem try_map_frame_witness :
    invoked (tryMapRun [0, 0, 5] (liftF wEightF) ()) =
        ([0, 0, 5] : List Nat).take (2 + 1) ∧
      (tryMapRun [0, 0, 5] (liftF wEightF) ()).dropped =
        (([0, 0, 5] : List Nat).take 2).filterMap (okOf wEightF) ∧
      ∀ u ∈ (tryMapRun [0, 0, 5] (liftF wEightF) ()).dropped,
        ∃ j t', j < 2 ∧ ([0, 0, 5] : List Nat).get? j = some t' ∧
          wEightF t' = Except.ok u :=
  try_map_frame [0, 0, 5] wEightF 2 5 () rfl rfl
    (by
      intro j t' hj hget
      have hj2 : j = 0 ∨ j = 1 := by omega
      rcases hj2 with h | h <;> subst h <;> simp at hget <;> subst hget <;>
        exact ⟨9, rfl⟩)

end ArrayTryMap
